import Mathlib

/-
Verification of the job-info side-storage module: a per-job, versioned
key/value store over a transactional table. We give a shallow embedding
of the storage state (the system.jobs claim table and the system.job_info
revision table), of the claim-session check, of the write (delete all
prior revisions, insert one new row), of the read (newest revision of a
key), of the prefix iteration with its de-duplication loop, and of the
two legacy fixed-key adapters, and prove the module's invariants:
latest-wins, claim fencing, the unclaimed bypass, the Get result
taxonomy, iteration de-duplication and ordering, visitor-error abort, and
the legacy round-trip.
-/

namespace JobInfo

/-- Byte strings are modelled as lists of naturals. -/
abbrev Bytes := List Nat

/-- A SQL datum as it comes back from the engine: a byte string, NULL, or
some other (non-bytes) value. The code type-asserts datums to byte
strings; the non-bytes constructors let us model those branches. -/
inductive Datum where
  | dbytes (b : Bytes)
  | dnull
  | dother
deriving DecidableEq, Repr

/-- The in-memory job handle: its numeric ID and, when the job is
claimed by this node, the claiming session's identity bytes
(j.Session() being nil is modelled by none). -/
structure JobHandle where
  id : Nat
  session : Option Bytes
deriving DecidableEq, Repr

/-- A row of system.jobs as far as this module reads it: the job id and
the claim_session_id column (which may be NULL). -/
structure JobsRow where
  id : Nat
  claim_session_id : Datum
deriving DecidableEq, Repr

/-- A row of system.job_info: job id, info key, logical write timestamp,
and the value column (a datum, normally bytes). -/
structure JobInfoRow where
  job_id : Nat
  info_key : Bytes
  written : Nat
  value : Datum
deriving DecidableEq, Repr

/-- The backing store visible to one transaction: the jobs table, the
job_info table, and the logical clock used for the written column. -/
structure State where
  jobs : List JobsRow
  infoRows : List JobInfoRow
  clock : Nat
deriving DecidableEq, Repr

/-- The storage handle: a job plus whether a transaction is attached
(i.txn == nil is modelled by hasTxn = false). -/
structure InfoStorage where
  j : JobHandle
  hasTxn : Bool
deriving DecidableEq, Repr

/-- Outcome of checkClaimSession. The stored claim column is converted
with an unchecked type assertion in the source, so a non-bytes stored
claim is a runtime panic, not an error: hence the panicked outcome. -/
inductive ClaimCheck where
  | ok
  | errNoRow (expected : Bytes) (jobID : Nat)
  | errMismatch (expected stored : Bytes)
  | panicked
deriving DecidableEq, Repr

/-- checkClaimSession: single-row lookup of claim_session_id for the job
id; no row is an error; then the stored bytes are compared with the
caller session's bytes. -/
def checkClaimSession (st : State) (jobID : Nat) (sess : Bytes) : ClaimCheck :=
  match st.jobs.find? (fun jr => jr.id == jobID) with
  | none => .errNoRow sess jobID
  | some jr =>
    match jr.claim_session_id with
    | .dbytes stored => if stored = sess then .ok else .errMismatch sess stored
    | _ => .panicked

/-- Errors the write path can return. -/
inductive WriteErr where
  | noTxn
  | claimNoRow (expected : Bytes) (jobID : Nat)
  | claimMismatch (expected stored : Bytes)
deriving DecidableEq, Repr

/-- Result of write: success (with the new state, and whether the
no-session diagnostic note was logged), an error (with the state, which
an error path leaves untouched), or a runtime panic. -/
inductive WriteOut where
  | ok (st : State) (noted : Bool)
  | error (e : WriteErr) (st : State)
  | panicked (st : State)
deriving DecidableEq, Repr

/-- The DELETE statement: remove every job_info row for (jobID, infoKey). -/
def deleteInfo (st : State) (jobID : Nat) (infoKey : Bytes) : State :=
  ⟨st.jobs,
   st.infoRows.filter (fun r => !(r.job_id == jobID && r.info_key == infoKey)),
   st.clock⟩

/-- The INSERT statement: append one row for (jobID, infoKey) carrying
the value, stamped with the current logical time. -/
def insertInfo (st : State) (jobID : Nat) (infoKey value : Bytes) : State :=
  ⟨st.jobs,
   st.infoRows ++ [⟨jobID, infoKey, st.clock, .dbytes value⟩],
   st.clock + 1⟩

/-- write: require a transaction; when the handle carries a session run
the claim check (erroring out before any mutation on failure), otherwise
skip it and log a note; then delete all prior revisions of the key and
insert the new row. -/
def write (i : InfoStorage) (st : State) (infoKey value : Bytes) : WriteOut :=
  if i.hasTxn = false then .error .noTxn st
  else
    match i.j.session with
    | some sess =>
      match checkClaimSession st i.j.id sess with
      | .ok => .ok (insertInfo (deleteInfo st i.j.id infoKey) i.j.id infoKey value) false
      | .errNoRow e jid => .error (.claimNoRow e jid) st
      | .errMismatch e s => .error (.claimMismatch e s) st
      | .panicked => .panicked st
    | none => .ok (insertInfo (deleteInfo st i.j.id infoKey) i.j.id infoKey value) true

/-- Errors the read path can return. -/
inductive GetErr where
  | noTxn
  | assertionFailed (d : Datum)
deriving DecidableEq, Repr

/-- All job_info rows for a (jobID, infoKey) pair, in table order. -/
def infoRowsFor (st : State) (jobID : Nat) (infoKey : Bytes) : List JobInfoRow :=
  st.infoRows.filter (fun r => r.job_id == jobID && r.info_key == infoKey)

/-- ORDER BY written DESC LIMIT 1 over a row list: the first row of
maximal written timestamp. -/
def newestOf : List JobInfoRow → Option JobInfoRow
  | [] => none
  | r :: rest =>
    match newestOf rest with
    | none => some r
    | some m => if r.written < m.written then some m else some r

/-- The newest revision of (jobID, infoKey) in the state, if any. -/
def newestRow (st : State) (jobID : Nat) (infoKey : Bytes) : Option JobInfoRow :=
  newestOf (infoRowsFor st jobID infoKey)

/-- get: require a transaction; fetch the newest revision of the key; no
row means (found = false, no error), modelled as ok none; a non-bytes
value column is an assertion failure. -/
def get (i : InfoStorage) (st : State) (infoKey : Bytes) : Except GetErr (Option Bytes) :=
  if i.hasTxn = false then .error .noTxn
  else
    match newestRow st i.j.id infoKey with
    | none => .ok none
    | some r =>
      match r.value with
      | .dbytes v => .ok (some v)
      | d => .error (.assertionFailed d)

/-- Errors the iteration path can return: a missing transaction, a
non-bytes value column, a failing visitor (its error payload), or a
failed cursor advance. -/
inductive IterErr where
  | noTxn
  | badValue (d : Datum)
  | visitFailed (e : Nat)
  | advanceFailed
deriving DecidableEq, Repr

/-- State of the iteration loop when it stops: every visitor invocation
made (key and value, in order, the last one possibly the failing one),
the dedup prevKey variable, the error if any, and how many cursor rows
the loop body examined. -/
structure LoopOut where
  calls : List (Bytes × Bytes)
  prevKey : Bytes
  err : Option IterErr
  examined : Nat
deriving DecidableEq, Repr

/-- The body of iterate: walk the cursor rows; a row whose key equals
prevKey is an older revision of a key already reported and is skipped;
otherwise remember the key as prevKey, decode the value (assertion
failure if not bytes) and invoke the visitor, whose error aborts the
loop. The visitor returns none for success, some e for failure. -/
def iterLoop (fn : Bytes → Bytes → Option Nat) : Bytes → List JobInfoRow → LoopOut
  | prev, [] => ⟨[], prev, none, 0⟩
  | prev, r :: rest =>
    if r.info_key = prev then
      let o := iterLoop fn prev rest
      ⟨o.calls, o.prevKey, o.err, o.examined + 1⟩
    else
      match r.value with
      | .dbytes v =>
        match fn r.info_key v with
        | none =>
          let o := iterLoop fn r.info_key rest
          ⟨(r.info_key, v) :: o.calls, o.prevKey, o.err, o.examined + 1⟩
        | some e => ⟨[(r.info_key, v)], r.info_key, some (.visitFailed e), 1⟩
      | d => ⟨[], r.info_key, some (.badValue d), 1⟩

/-- Result of iterate: the visitor invocations, the returned error if
any, the number of rows examined, and whether the cursor was closed
(the deferred Close runs on every exit path once the cursor is open). -/
structure IterOut where
  calls : List (Bytes × Bytes)
  err : Option IterErr
  examined : Nat
  closed : Bool
deriving DecidableEq, Repr

/-- Run the loop over an open cursor and close it. advFail models the
engine failing the cursor advance after the listed rows: the loop then
exits with the advance error, which the deferred close does not mask. -/
def iterateCursor (fn : Bytes → Bytes → Option Nat) (rows : List JobInfoRow)
    (advFail : Bool) : IterOut :=
  let o := iterLoop fn [] rows
  ⟨o.calls,
   match o.err with
   | some e => some e
   | none => if advFail then some .advanceFailed else none,
   o.examined,
   true⟩

/-- The SQL ordering of the iteration query: info_key ascending, then
written descending. Key order on byte strings is lexicographic. -/
def rowLE (a b : JobInfoRow) : Prop :=
  a.info_key < b.info_key ∨ (a.info_key = b.info_key ∧ b.written ≤ a.written)

instance : DecidableRel rowLE := fun a b =>
  inferInstanceAs (Decidable (a.info_key < b.info_key ∨
    (a.info_key = b.info_key ∧ b.written ≤ a.written)))

instance : IsTotal JobInfoRow rowLE where
  total a b := by
    rcases lt_trichotomy a.info_key b.info_key with h | h | h
    · exact Or.inl (Or.inl h)
    · rcases Nat.le_total b.written a.written with hw | hw
      · exact Or.inl (Or.inr ⟨h, hw⟩)
      · exact Or.inr (Or.inr ⟨h.symm, hw⟩)
    · exact Or.inr (Or.inl h)

instance : IsTrans JobInfoRow rowLE where
  trans a b c hab hbc := by
    rcases hab with hab | ⟨hab, hw1⟩
    · rcases hbc with hbc | ⟨hbc, _⟩
      · exact Or.inl (hab.trans hbc)
      · exact Or.inl (hbc ▸ hab)
    · rcases hbc with hbc | ⟨hbc, hw2⟩
      · exact Or.inl (hab ▸ hbc)
      · exact Or.inr ⟨hab.trans hbc, hw2.trans hw1⟩

/-- The WHERE clause of the iteration query: rows of this job whose key
starts with the given byte prefix, substring(info_key for n) being the
first n bytes. -/
def matchingRows (st : State) (jobID : Nat) (pre : Bytes) : List JobInfoRow :=
  st.infoRows.filter (fun r => r.job_id == jobID && r.info_key.take pre.length == pre)

/-- The cursor rows of the iteration query, in its ORDER BY order. -/
def sortedRows (st : State) (jobID : Nat) (pre : Bytes) : List JobInfoRow :=
  List.insertionSort rowLE (matchingRows st jobID pre)

/-- iterate: require a transaction (before the cursor exists), then run
the de-duplicating loop over the ordered cursor. -/
def iterate (i : InfoStorage) (st : State) (pre : Bytes)
    (fn : Bytes → Bytes → Option Nat) (advFail : Bool) : IterOut :=
  if i.hasTxn = false then ⟨[], some .noTxn, 0, false⟩
  else iterateCursor fn (sortedRows st i.j.id pre) advFail

/-- Bytes of an ASCII string constant. -/
def strBytes (s : String) : Bytes := s.data.map Char.toNat

/-- The fixed info key of the legacy payload adapter. -/
def legacyPayloadKey : String := "legacy_payload"

/-- The fixed info key of the legacy progress adapter. -/
def legacyProgressKey : String := "legacy_progress"

/-- GetLegacyPayloadKey returns the info_key of the legacy payload. -/
def GetLegacyPayloadKey : Bytes := strBytes legacyPayloadKey

/-- GetLegacyProgressKey returns the info_key of the legacy progress. -/
def GetLegacyProgressKey : Bytes := strBytes legacyProgressKey

/-- GetLegacyPayload reads the legacy payload record. -/
def GetLegacyPayload (i : InfoStorage) (st : State) : Except GetErr (Option Bytes) :=
  get i st (strBytes legacyPayloadKey)

/-- WriteLegacyPayload writes the legacy payload record. -/
def WriteLegacyPayload (i : InfoStorage) (st : State) (payload : Bytes) : WriteOut :=
  write i st (strBytes legacyPayloadKey) payload

/-- GetLegacyProgress reads the legacy progress record. -/
def GetLegacyProgress (i : InfoStorage) (st : State) : Except GetErr (Option Bytes) :=
  get i st (strBytes legacyProgressKey)

/-- WriteLegacyProgress writes the legacy progress record. -/
def WriteLegacyProgress (i : InfoStorage) (st : State) (pr : Bytes) : WriteOut :=
  write i st (strBytes legacyProgressKey) pr

/-! Concrete fixtures used to exercise the definitions. -/

/-- A session identity. -/
def sessA : Bytes := [1]

/-- A second, different session identity. -/
def sessB : Bytes := [2]

/-- A storage handle for job 7 claimed under sessA. -/
def storA : InfoStorage := ⟨⟨7, some sessA⟩, true⟩

/-- A storage handle for job 7 under sessB. -/
def storB : InfoStorage := ⟨⟨7, some sessB⟩, true⟩

/-- A storage handle for job 7 with no session. -/
def storNoSess : InfoStorage := ⟨⟨7, none⟩, true⟩

/-- Job 7 claimed by sessA, empty info table. -/
def st0 : State := ⟨[⟨7, .dbytes sessA⟩], [], 0⟩

/-- Job 7 claimed by sessA, one info record. -/
def st1 : State := ⟨[⟨7, .dbytes sessA⟩], [⟨7, [3], 0, .dbytes [4]⟩], 1⟩

/-- No job row at all. -/
def stNoJob : State := ⟨[], [⟨7, [3], 0, .dbytes [4]⟩], 1⟩

/-- Job 7 with a NULL claim column. -/
def stNull : State := ⟨[⟨7, .dnull⟩], [], 0⟩

/-- Job 7 with a corrupted (non-bytes) info value. -/
def stBad : State := ⟨[⟨7, .dbytes sessA⟩], [⟨7, [3], 0, .dother⟩], 1⟩

/-- Job 7 with several revisions of several keys, plus an empty-key
record and a record of another job. -/
def stIter : State :=
  ⟨[⟨7, .dbytes sessA⟩],
   [⟨7, [10, 1], 0, .dbytes [100]⟩, ⟨7, [10, 1], 5, .dbytes [101]⟩,
    ⟨7, [10, 2], 6, .dbytes [201]⟩, ⟨7, [10, 2], 1, .dbytes [200]⟩,
    ⟨7, [20, 1], 2, .dbytes [300]⟩, ⟨7, [20, 1], 7, .dbytes [301]⟩,
    ⟨7, [], 3, .dbytes [50]⟩, ⟨8, [10, 9], 4, .dbytes [90]⟩],
   8⟩

/-- The state produced by a legacy payload write of [9] against st0. -/
def stLP : State := ⟨[⟨7, .dbytes sessA⟩], [⟨7, GetLegacyPayloadKey, 0, .dbytes [9]⟩], 1⟩

/-- A visitor that always succeeds. -/
def fnOK : Bytes → Bytes → Option Nat := fun _ _ => none

/-- A visitor that fails on key [10, 2] with error 5. -/
def fnFail : Bytes → Bytes → Option Nat :=
  fun k _ => if k = [10, 2] then some 5 else none

/-! Helper lemmas on the write and read paths. -/

lemma write_ok_inv {i : InfoStorage} {st st' : State} {k v : Bytes} {noted : Bool}
    (h : write i st k v = WriteOut.ok st' noted) :
    i.hasTxn = true ∧ st' = insertInfo (deleteInfo st i.j.id k) i.j.id k v := by
  unfold write at h
  split at h
  · exact absurd h (fun hx => WriteOut.noConfusion hx)
  · rename_i ht
    refine ⟨by simpa using ht, ?_⟩
    cases hs : i.j.session with
    | none =>
      simp only [hs] at h
      injection h with h1 h2
      exact h1.symm
    | some sess =>
      cases hcc : checkClaimSession st i.j.id sess <;> simp [hs, hcc] at h
      exact h.1.symm

lemma filter_not_filter (l : List JobInfoRow) (p : JobInfoRow → Bool) :
    (l.filter (fun r => !(p r))).filter p = [] := by
  induction l with
  | nil => rfl
  | cons r rest ih =>
    by_cases hp : p r = true
    · simp [List.filter_cons, hp, ih]
    · simp [List.filter_cons, hp, ih]

lemma infoRowsFor_deleteInfo_self (st : State) (jid : Nat) (k : Bytes) :
    infoRowsFor (deleteInfo st jid k) jid k = [] :=
  filter_not_filter st.infoRows (fun r => r.job_id == jid && r.info_key == k)

lemma infoRowsFor_insertInfo_self (st : State) (jid : Nat) (k v : Bytes) :
    infoRowsFor (insertInfo st jid k v) jid k
      = infoRowsFor st jid k ++ [⟨jid, k, st.clock, Datum.dbytes v⟩] := by
  unfold infoRowsFor insertInfo
  rw [List.filter_append]
  simp

lemma filter_filter_of_imp (l : List JobInfoRow) (p q : JobInfoRow → Bool)
    (h : ∀ r, p r = true → q r = true) : (l.filter q).filter p = l.filter p := by
  induction l with
  | nil => rfl
  | cons r rest ih =>
    by_cases hq : q r = true
    · by_cases hp : p r = true
      · simp [List.filter_cons, hq, hp, ih]
      · simp [List.filter_cons, hq, hp, ih]
    · have hp : p r = false := by
        cases hpv : p r
        · rfl
        · exact absurd (h r hpv) hq
      simp [List.filter_cons, hq, hp, ih]

lemma infoRowsFor_deleteInfo_ne (st : State) (jid jid2 : Nat) (kw k : Bytes)
    (hk : k ≠ kw) :
    infoRowsFor (deleteInfo st jid kw) jid2 k = infoRowsFor st jid2 k := by
  apply filter_filter_of_imp
  intro r hp
  simp only [Bool.and_eq_true, beq_iff_eq] at hp
  rw [hp.2]
  simp [hk]

lemma infoRowsFor_insertInfo_ne (st : State) (jid jid2 : Nat) (kw v k : Bytes)
    (hk : k ≠ kw) :
    infoRowsFor (insertInfo st jid kw v) jid2 k = infoRowsFor st jid2 k := by
  unfold infoRowsFor insertInfo
  rw [List.filter_append]
  simp [Ne.symm hk]

lemma get_eq_of_infoRowsFor_eq {i : InfoStorage} {st st' : State} {k : Bytes}
    (h : infoRowsFor st' i.j.id k = infoRowsFor st i.j.id k) :
    get i st' k = get i st k := by
  unfold get newestRow
  rw [h]

lemma write_ok_rows {i : InfoStorage} {st st' : State} {k v : Bytes} {noted : Bool}
    (h : write i st k v = WriteOut.ok st' noted) :
    infoRowsFor st' i.j.id k = [⟨i.j.id, k, st.clock, Datum.dbytes v⟩] := by
  obtain ⟨ht, hst'⟩ := write_ok_inv h
  subst hst'
  rw [infoRowsFor_insertInfo_self, infoRowsFor_deleteInfo_self]
  rfl

lemma get_after_write_ok {i : InfoStorage} {st st' : State} {k v : Bytes} {noted : Bool}
    (h : write i st k v = WriteOut.ok st' noted) :
    get i st' k = Except.ok (some v) := by
  obtain ⟨ht, hst'⟩ := write_ok_inv h
  have hrows := write_ok_rows h
  unfold get newestRow
  rw [if_neg (by simp [ht]), hrows]
  rfl

lemma write_noRow_eq {i : InfoStorage} {st : State} {sess : Bytes} (k v : Bytes)
    (htxn : i.hasTxn = true) (hsess : i.j.session = some sess)
    (hf : st.jobs.find? (fun r => r.id == i.j.id) = none) :
    write i st k v = WriteOut.error (.claimNoRow sess i.j.id) st := by
  simp [write, checkClaimSession, htxn, hsess, hf]

lemma write_mismatch_eq {i : InfoStorage} {st : State} {sess stored : Bytes}
    {jr : JobsRow} (k v : Bytes)
    (htxn : i.hasTxn = true) (hsess : i.j.session = some sess)
    (hf : st.jobs.find? (fun r => r.id == i.j.id) = some jr)
    (hc : jr.claim_session_id = Datum.dbytes stored) (hne : stored ≠ sess) :
    write i st k v = WriteOut.error (.claimMismatch sess stored) st := by
  simp [write, checkClaimSession, htxn, hsess, hf, hc, hne]

lemma write_match_eq {i : InfoStorage} {st : State} {sess : Bytes}
    {jr : JobsRow} (k v : Bytes)
    (htxn : i.hasTxn = true) (hsess : i.j.session = some sess)
    (hf : st.jobs.find? (fun r => r.id == i.j.id) = some jr)
    (hc : jr.claim_session_id = Datum.dbytes sess) :
    write i st k v = WriteOut.ok (insertInfo (deleteInfo st i.j.id k) i.j.id k v) false := by
  simp [write, checkClaimSession, htxn, hsess, hf, hc]

lemma write_nosess_eq {i : InfoStorage} {st : State} (k v : Bytes)
    (htxn : i.hasTxn = true) (hsess : i.j.session = none) :
    write i st k v = WriteOut.ok (insertInfo (deleteInfo st i.j.id k) i.j.id k v) true := by
  simp [write, htxn, hsess]

lemma write_null_eq {i : InfoStorage} {st : State} {sess : Bytes} {jr : JobsRow}
    (k v : Bytes)
    (htxn : i.hasTxn = true) (hsess : i.j.session = some sess)
    (hf : st.jobs.find? (fun r => r.id == i.j.id) = some jr)
    (hnb : ∀ b, jr.claim_session_id ≠ Datum.dbytes b) :
    write i st k v = WriteOut.panicked st := by
  cases hv : jr.claim_session_id with
  | dbytes b => exact absurd hv (hnb b)
  | dnull => simp [write, checkClaimSession, htxn, hsess, hf, hv]
  | dother => simp [write, checkClaimSession, htxn, hsess, hf, hv]

/-! Claim theorems on the write and read paths. -/

/-- C1: Latest-wins. After a successful write of value v under infoKey k
for the handle's job — whatever sequence of committed writes produced
the prior state — exactly one info record exists for (jobID, k), it
holds v, and a subsequent get returns exactly v with found = true. -/
theorem write_latest_wins (i : InfoStorage) (st st' : State) (noted : Bool) (k v : Bytes)
    (h : write i st k v = WriteOut.ok st' noted) :
    infoRowsFor st' i.j.id k = [⟨i.j.id, k, st.clock, Datum.dbytes v⟩] ∧
    get i st' k = Except.ok (some v) :=
  ⟨write_ok_rows h, get_after_write_ok h⟩

/-- Witness: a concrete successful write followed by a get. -/
theorem write_latest_wins_witness :
    infoRowsFor st1 7 [3] = [⟨7, [3], 0, Datum.dbytes [4]⟩] ∧
    get storA st1 [3] = Except.ok (some [4]) :=
  write_latest_wins storA st0 st1 false [3] [4] (by decide)

/-- C2: Claim fencing with atomicity on error. For a write on a handle
carrying a session: a missing job row yields an error with the state
untouched, stored claim bytes differing from the session bytes yield an
error with the state untouched, and matching claim bytes let the write
proceed (delete of prior revisions plus insert of the new row). -/
theorem write_claim_fencing (i : InfoStorage) (st : State) (k v sess : Bytes)
    (htxn : i.hasTxn = true) (hsess : i.j.session = some sess) :
    (st.jobs.find? (fun r => r.id == i.j.id) = none →
      write i st k v = WriteOut.error (.claimNoRow sess i.j.id) st) ∧
    (∀ jr stored, st.jobs.find? (fun r => r.id == i.j.id) = some jr →
      jr.claim_session_id = Datum.dbytes stored → stored ≠ sess →
      write i st k v = WriteOut.error (.claimMismatch sess stored) st) ∧
    (∀ jr, st.jobs.find? (fun r => r.id == i.j.id) = some jr →
      jr.claim_session_id = Datum.dbytes sess →
      write i st k v = WriteOut.ok (insertInfo (deleteInfo st i.j.id k) i.j.id k v) false) :=
  ⟨fun hf => write_noRow_eq k v htxn hsess hf,
   fun _ _ hf hc hne => write_mismatch_eq k v htxn hsess hf hc hne,
   fun _ hf hc => write_match_eq k v htxn hsess hf hc⟩

/-- Witness: a write under session B against a job claimed by session A
fails with the mismatch error and returns the unchanged state. -/
theorem write_claim_fencing_witness :
    write storB st1 [3] [9] = WriteOut.error (.claimMismatch sessB sessA) st1 :=
  (write_claim_fencing storB st1 [3] [9] sessB rfl rfl).2.1 ⟨7, Datum.dbytes sessA⟩ sessA
    (by decide) rfl (by decide)

/-- C4: Unclaimed bypass. A write on a handle with no session skips the
claim check, emits the diagnostic note (noted = true) instead of an
error, and performs the delete plus insert regardless of what claim, if
any, the backing store records for the job. -/
theorem write_unclaimed_bypass (i : InfoStorage) (st : State) (k v : Bytes)
    (htxn : i.hasTxn = true) (hsess : i.j.session = none) :
    write i st k v = WriteOut.ok (insertInfo (deleteInfo st i.j.id k) i.j.id k v) true :=
  write_nosess_eq k v htxn hsess

/-- Witness: a sessionless write succeeds even on a job whose stored
claim column is NULL. -/
theorem write_unclaimed_bypass_witness :
    write storNoSess stNull [3] [9]
      = WriteOut.ok (insertInfo (deleteInfo stNull 7 [3]) 7 [3] [9]) true :=
  write_unclaimed_bypass storNoSess stNull [3] [9] rfl rfl

/-- C5: Get result taxonomy. With an active transaction, a key with no
row yields found = false with no error (ok none); a newest row whose
value column is not a byte string yields an assertion error, which is a
different result from the ordinary not-found one. -/
theorem get_result_taxonomy (i : InfoStorage) (st : State) (k : Bytes)
    (htxn : i.hasTxn = true) :
    (infoRowsFor st i.j.id k = [] → get i st k = Except.ok none) ∧
    (∀ r, newestRow st i.j.id k = some r → (∀ b, r.value ≠ Datum.dbytes b) →
      get i st k = Except.error (GetErr.assertionFailed r.value)) ∧
    (∀ d, Except.error (GetErr.assertionFailed d) ≠ (Except.ok none : Except GetErr (Option Bytes))) := by
  refine ⟨?_, ?_, fun d h => Except.noConfusion h⟩
  · intro hrows
    unfold get newestRow
    rw [if_neg (by simp [htxn]), hrows]
    rfl
  · intro r hnr hnb
    unfold get
    rw [if_neg (by simp [htxn])]
    simp only [hnr]

/-- Witness: an unused key reads as found = false without error, and a
corrupted value column reads as an assertion error. -/
theorem get_result_taxonomy_witness :
    get storA st0 [6] = Except.ok none ∧
    get storA stBad [3] = Except.error (GetErr.assertionFailed Datum.dother) :=
  ⟨(get_result_taxonomy storA st0 [6] rfl).1 (by decide),
   (get_result_taxonomy storA stBad [3] rfl).2.1 ⟨7, [3], 0, Datum.dother⟩ (by decide)
     (fun b h => Datum.noConfusion h)⟩

/-- C7: Distinct error identities for the claim check. The mismatch
error and the missing-job-row error are produced exactly on their
scenarios, carry different identities from each other and from the
precondition error, and the found-but-unclaimed case is not an error at
all: it is the successful bypass, and a success is never equal to an
error result. -/
theorem claim_error_identities :
    (∀ (i : InfoStorage) (st : State) (k v sess stored : Bytes) (jr : JobsRow),
      i.hasTxn = true → i.j.session = some sess →
      st.jobs.find? (fun r => r.id == i.j.id) = some jr →
      jr.claim_session_id = Datum.dbytes stored → stored ≠ sess →
      write i st k v = WriteOut.error (.claimMismatch sess stored) st) ∧
    (∀ (i : InfoStorage) (st : State) (k v sess : Bytes),
      i.hasTxn = true → i.j.session = some sess →
      st.jobs.find? (fun r => r.id == i.j.id) = none →
      write i st k v = WriteOut.error (.claimNoRow sess i.j.id) st) ∧
    (∀ a b c d, WriteErr.claimMismatch a b ≠ WriteErr.claimNoRow c d) ∧
    (∀ a b, WriteErr.claimMismatch a b ≠ WriteErr.noTxn) ∧
    (∀ (i : InfoStorage) (st : State) (k v : Bytes),
      i.hasTxn = true → i.j.session = none →
      write i st k v = WriteOut.ok (insertInfo (deleteInfo st i.j.id k) i.j.id k v) true) ∧
    (∀ (st2 : State) (n : Bool) (e : WriteErr) (st3 : State),
      WriteOut.ok st2 n ≠ WriteOut.error e st3) :=
  ⟨fun _ _ k v _ _ _ htxn hsess hf hc hne => write_mismatch_eq k v htxn hsess hf hc hne,
   fun _ _ k v _ htxn hsess hf => write_noRow_eq k v htxn hsess hf,
   fun _ _ _ _ h => WriteErr.noConfusion h,
   fun _ _ h => WriteErr.noConfusion h,
   fun _ _ k v htxn hsess => write_nosess_eq k v htxn hsess,
   fun _ _ _ _ h => WriteOut.noConfusion h⟩

/-- Witness: the missing-job-row error at a concrete write. -/
theorem claim_error_identities_witness :
    write storA stNoJob [3] [9] = WriteOut.error (.claimNoRow sessA 7) stNoJob :=
  claim_error_identities.2.1 storA stNoJob [3] [9] sessA rfl rfl (by decide)

/-- C9: The claim check converts the stored claim column with an
unchecked type assertion: when the handle carries a session and the job
row exists but its claim column is not a byte string (for example NULL),
the write neither succeeds nor returns an error — it panics. -/
theorem write_null_claim_panics (i : InfoStorage) (st : State) (k v sess : Bytes)
    (jr : JobsRow)
    (htxn : i.hasTxn = true) (hsess : i.j.session = some sess)
    (hf : st.jobs.find? (fun r => r.id == i.j.id) = some jr)
    (hnb : ∀ b, jr.claim_session_id ≠ Datum.dbytes b) :
    write i st k v = WriteOut.panicked st ∧
    (∀ e st2, write i st k v ≠ WriteOut.error e st2) := by
  have h := write_null_eq k v htxn hsess hf hnb
  exact ⟨h, fun e st2 hx => by rw [h] at hx; exact WriteOut.noConfusion hx⟩

/-- Witness: writing under a session to a job whose stored claim is
NULL panics. -/
theorem write_null_claim_panics_witness :
    write storA stNull [3] [9] = WriteOut.panicked stNull :=
  (write_null_claim_panics storA stNull [3] [9] sessA ⟨7, Datum.dnull⟩ rfl rfl
    (by decide) (fun b h => Datum.noConfusion h)).1

/-- C8: Legacy adapter round-trip and non-collision. A successful
WriteLegacyPayload followed by GetLegacyPayload returns the payload with
found = true; it leaves records under every other info key (of any job)
unchanged, in particular the legacy progress record; the two fixed keys
differ; each adapter is pure delegation to write or get with its fixed
key; and the progress adapters round-trip likewise. -/
theorem legacy_adapters_roundtrip (i : InfoStorage) (st st' : State) (noted : Bool)
    (p : Bytes)
    (h : WriteLegacyPayload i st p = WriteOut.ok st' noted) :
    GetLegacyPayload i st' = Except.ok (some p) ∧
    (∀ jid k, k ≠ strBytes legacyPayloadKey → infoRowsFor st' jid k = infoRowsFor st jid k) ∧
    GetLegacyProgress i st' = GetLegacyProgress i st ∧
    strBytes legacyPayloadKey ≠ strBytes legacyProgressKey ∧
    (∀ i2 st2 q, WriteLegacyPayload i2 st2 q = write i2 st2 (strBytes legacyPayloadKey) q) ∧
    (∀ i2 st2, GetLegacyPayload i2 st2 = get i2 st2 (strBytes legacyPayloadKey)) ∧
    (∀ i2 st2 q, WriteLegacyProgress i2 st2 q = write i2 st2 (strBytes legacyProgressKey) q) ∧
    (∀ i2 st2, GetLegacyProgress i2 st2 = get i2 st2 (strBytes legacyProgressKey)) ∧
    (∀ i2 st2 st3 n2 q, WriteLegacyProgress i2 st2 q = WriteOut.ok st3 n2 →
      GetLegacyProgress i2 st3 = Except.ok (some q)) := by
  have hother : ∀ jid k, k ≠ strBytes legacyPayloadKey →
      infoRowsFor st' jid k = infoRowsFor st jid k := by
    obtain ⟨ht, hst'⟩ := write_ok_inv h
    subst hst'
    intro jid k hk
    rw [infoRowsFor_insertInfo_ne _ _ _ _ _ _ hk, infoRowsFor_deleteInfo_ne _ _ _ _ _ hk]
  refine ⟨get_after_write_ok h, hother, ?_, by decide,
    fun _ _ _ => rfl, fun _ _ => rfl, fun _ _ _ => rfl, fun _ _ => rfl,
    fun _ _ _ _ _ h2 => get_after_write_ok h2⟩
  exact get_eq_of_infoRowsFor_eq (hother i.j.id (strBytes legacyProgressKey) (by decide))

/-- Witness: a concrete legacy payload write and read back. -/
theorem legacy_adapters_roundtrip_witness :
    GetLegacyPayload storA stLP = Except.ok (some [9]) :=
  (legacy_adapters_roundtrip storA st0 stLP false [9] (by decide)).1

/-! Helper lemmas on the iteration path. -/

lemma rowLE_key {a b : JobInfoRow} (h : rowLE a b) : a.info_key ≤ b.info_key := by
  rcases h with h | ⟨h, _⟩
  · exact le_of_lt h
  · exact le_of_eq h

lemma iterLoop_append (fn : Bytes → Bytes → Option Nat) (l₁ l₂ : List JobInfoRow)
    (prev : Bytes) (h : (iterLoop fn prev l₁).err = none) :
    iterLoop fn prev (l₁ ++ l₂) =
      ⟨(iterLoop fn prev l₁).calls ++ (iterLoop fn (iterLoop fn prev l₁).prevKey l₂).calls,
       (iterLoop fn (iterLoop fn prev l₁).prevKey l₂).prevKey,
       (iterLoop fn (iterLoop fn prev l₁).prevKey l₂).err,
       (iterLoop fn prev l₁).examined + (iterLoop fn (iterLoop fn prev l₁).prevKey l₂).examined⟩ := by
  induction l₁ generalizing prev with
  | nil => simp [iterLoop]
  | cons r rest ih =>
    by_cases hk : r.info_key = prev
    · have h2 : (iterLoop fn prev rest).err = none := by
        simpa [iterLoop, hk] using h
      simp only [List.cons_append, iterLoop, if_pos hk, List.append_eq]
      rw [ih prev h2]
      simp [LoopOut.mk.injEq]
      omega
    · cases hv : r.value with
      | dbytes v =>
        cases hf : fn r.info_key v with
        | none =>
          have h2 : (iterLoop fn r.info_key rest).err = none := by
            simpa [iterLoop, hk, hv, hf] using h
          simp only [List.cons_append, iterLoop, if_neg hk, hv, hf, List.append_eq]
          rw [ih r.info_key h2]
          simp [LoopOut.mk.injEq]
          omega
        | some e => exact absurd h (by simp [iterLoop, hk, hv, hf])
      | dnull => exact absurd h (by simp [iterLoop, hk, hv])
      | dother => exact absurd h (by simp [iterLoop, hk, hv])

lemma iterLoop_examined_of_ok (fn : Bytes → Bytes → Option Nat) (l : List JobInfoRow)
    (prev : Bytes) (h : (iterLoop fn prev l).err = none) :
    (iterLoop fn prev l).examined = l.length := by
  induction l generalizing prev with
  | nil => simp [iterLoop]
  | cons r rest ih =>
    by_cases hk : r.info_key = prev
    · have h2 : (iterLoop fn prev rest).err = none := by
        simpa [iterLoop, hk] using h
      simp [iterLoop, hk, ih prev h2]
    · cases hv : r.value with
      | dbytes v =>
        cases hf : fn r.info_key v with
        | none =>
          have h2 : (iterLoop fn r.info_key rest).err = none := by
            simpa [iterLoop, hk, hv, hf] using h
          simp [iterLoop, hk, hv, hf, ih r.info_key h2]
        | some e => exact absurd h (by simp [iterLoop, hk, hv, hf])
      | dnull => exact absurd h (by simp [iterLoop, hk, hv])
      | dother => exact absurd h (by simp [iterLoop, hk, hv])

lemma iterLoop_calls_spec (fn : Bytes → Bytes → Option Nat) (l : List JobInfoRow)
    (prev : Bytes) (hsort : List.Sorted rowLE l)
    (hprev : ∀ r ∈ l, prev ≤ r.info_key) :
    (∀ kv ∈ (iterLoop fn prev l).calls, prev < kv.1) ∧
    List.Pairwise (fun a b : Bytes × Bytes => a.1 < b.1) (iterLoop fn prev l).calls ∧
    (∀ kv ∈ (iterLoop fn prev l).calls,
      ∃ r ∈ l, r.info_key = kv.1 ∧ r.value = Datum.dbytes kv.2 ∧
        ∀ r2 ∈ l, r2.info_key = kv.1 → r2.written ≤ r.written) := by
  induction l generalizing prev with
  | nil => simp [iterLoop]
  | cons r rest ih =>
    have hsr : ∀ r2 ∈ rest, rowLE r r2 := (List.sorted_cons.mp hsort).1
    have hst : List.Sorted rowLE rest := (List.sorted_cons.mp hsort).2
    by_cases hk : r.info_key = prev
    · have hprev2 : ∀ r2 ∈ rest, prev ≤ r2.info_key := fun r2 h2 =>
        hk ▸ rowLE_key (hsr r2 h2)
      obtain ⟨ih1, ih2, ih3⟩ := ih prev hst hprev2
      refine ⟨?_, ?_, ?_⟩ <;> simp only [iterLoop, if_pos hk]
      · exact ih1
      · exact ih2
      · intro kv hkv
        obtain ⟨r3, hr3, hkey, hval, hmax⟩ := ih3 kv hkv
        refine ⟨r3, List.mem_cons_of_mem _ hr3, hkey, hval, ?_⟩
        intro r2 hr2 hkey2
        rcases List.mem_cons.mp hr2 with rfl | hr2
        · exact absurd ((hk.symm.trans hkey2) ▸ ih1 kv hkv) (lt_irrefl _)
        · exact hmax r2 hr2 hkey2
    · have hple : prev ≤ r.info_key := hprev r (List.mem_cons_self r rest)
      have hplt : prev < r.info_key := lt_of_le_of_ne hple (fun he => hk he.symm)
      have hmaxhead : ∀ r2 ∈ r :: rest, r2.info_key = r.info_key →
          r2.written ≤ r.written := by
        intro r2 hr2 hkey2
        rcases List.mem_cons.mp hr2 with rfl | hr2
        · exact le_refl _
        · rcases hsr r2 hr2 with hlt | ⟨_, hw⟩
          · exact absurd (hkey2 ▸ hlt) (lt_irrefl _)
          · exact hw
      cases hv : r.value with
      | dbytes v =>
        cases hf : fn r.info_key v with
        | none =>
          have hprev2 : ∀ r2 ∈ rest, r.info_key ≤ r2.info_key := fun r2 h2 =>
            rowLE_key (hsr r2 h2)
          obtain ⟨ih1, ih2, ih3⟩ := ih r.info_key hst hprev2
          refine ⟨?_, ?_, ?_⟩ <;> simp only [iterLoop, if_neg hk, hv, hf]
          · intro kv hkv
            rcases List.mem_cons.mp hkv with rfl | hkv
            · exact hplt
            · exact lt_trans hplt (ih1 kv hkv)
          · exact List.Pairwise.cons (fun kv hkv => ih1 kv hkv) ih2
          · intro kv hkv
            rcases List.mem_cons.mp hkv with rfl | hkv
            · exact ⟨r, List.mem_cons_self r rest, rfl, hv, hmaxhead⟩
            · obtain ⟨r3, hr3, hkey, hval, hmax⟩ := ih3 kv hkv
              refine ⟨r3, List.mem_cons_of_mem _ hr3, hkey, hval, ?_⟩
              intro r2 hr2 hkey2
              rcases List.mem_cons.mp hr2 with rfl | hr2
              · exact absurd (hkey2 ▸ ih1 kv hkv) (lt_irrefl _)
              · exact hmax r2 hr2 hkey2
        | some e =>
          refine ⟨?_, ?_, ?_⟩ <;> simp only [iterLoop, if_neg hk, hv, hf]
          · intro kv hkv
            rcases List.mem_cons.mp hkv with rfl | hkv
            · exact hplt
            · exact absurd hkv (List.not_mem_nil kv)
          · exact List.pairwise_singleton _ _
          · intro kv hkv
            rcases List.mem_cons.mp hkv with rfl | hkv
            · exact ⟨r, List.mem_cons_self r rest, rfl, hv, hmaxhead⟩
            · exact absurd hkv (List.not_mem_nil kv)
      | dnull =>
        refine ⟨?_, ?_, ?_⟩ <;> simp [iterLoop, hk, hv]
      | dother =>
        refine ⟨?_, ?_, ?_⟩ <;> simp [iterLoop, hk, hv]

lemma iterate_calls_eq (i : InfoStorage) (st : State) (pre : Bytes)
    (fn : Bytes → Bytes → Option Nat) (advFail : Bool) (htxn : i.hasTxn = true) :
    (iterate i st pre fn advFail).calls
      = (iterLoop fn [] (sortedRows st i.j.id pre)).calls := by
  unfold iterate iterateCursor
  rw [if_neg (by simp [htxn])]

lemma mem_matchingRows {st : State} {jid : Nat} {pre : Bytes} {r : JobInfoRow} :
    r ∈ matchingRows st jid pre ↔
      r ∈ st.infoRows ∧ r.job_id = jid ∧ r.info_key.take pre.length = pre := by
  simp [matchingRows, List.mem_filter, and_assoc]

lemma mem_sortedRows {st : State} {jid : Nat} {pre : Bytes} {r : JobInfoRow} :
    r ∈ sortedRows st jid pre ↔ r ∈ matchingRows st jid pre :=
  (List.perm_insertionSort rowLE _).mem_iff

/-! Claim theorems on the iteration path. -/

/-- C3: Iteration de-duplication and order. The visitor is invoked at
most once per distinct info key (the visited keys are pairwise distinct
and strictly ascending in the byte order the query sorts by), every
visited key matches the prefix, and every invocation carries that key's
newest value among the job's rows. -/
theorem iterate_dedup_order (i : InfoStorage) (st : State) (pre : Bytes)
    (fn : Bytes → Bytes → Option Nat) (advFail : Bool) (htxn : i.hasTxn = true) :
    List.Pairwise (fun a b : Bytes × Bytes => a.1 < b.1) (iterate i st pre fn advFail).calls ∧
    (∀ kv ∈ (iterate i st pre fn advFail).calls,
      kv.1.take pre.length = pre ∧
      ∃ r ∈ st.infoRows, r.job_id = i.j.id ∧ r.info_key = kv.1 ∧
        r.value = Datum.dbytes kv.2 ∧
        ∀ r2 ∈ st.infoRows, r2.job_id = i.j.id → r2.info_key = kv.1 →
          r2.written ≤ r.written) := by
  have hcalls := iterate_calls_eq i st pre fn advFail htxn
  have hsort : List.Sorted rowLE (sortedRows st i.j.id pre) :=
    List.sorted_insertionSort rowLE (matchingRows st i.j.id pre)
  obtain ⟨h1, h2, h3⟩ := iterLoop_calls_spec fn (sortedRows st i.j.id pre) [] hsort
    (fun r _ => List.nil_le)
  rw [hcalls]
  refine ⟨h2, ?_⟩
  intro kv hkv
  obtain ⟨r3, hr3, hkey, hval, hmax⟩ := h3 kv hkv
  obtain ⟨hr3mem, hr3job, hr3pre⟩ := mem_matchingRows.mp (mem_sortedRows.mp hr3)
  refine ⟨hkey ▸ hr3pre, r3, hr3mem, hr3job, hkey, hval, ?_⟩
  intro r2 hr2 hj2 hk2
  exact hmax r2 (mem_sortedRows.mpr (mem_matchingRows.mpr
    ⟨hr2, hj2, hk2 ▸ hkey ▸ hr3pre⟩)) hk2

/-- Witness: the visited keys of a concrete iteration are strictly
ascending and pairwise distinct. -/
theorem iterate_dedup_order_witness :
    List.Pairwise (fun a b : Bytes × Bytes => a.1 < b.1)
      (iterate storA stIter [] fnOK false).calls :=
  (iterate_dedup_order storA stIter [] fnOK false rfl).1

/-- C6: Visitor-error abort. When the loop reaches a row whose key is
new and whose visit fails, iterate stops there: the returned error is
the visitor's, exactly the rows before and including the failing one
were examined, the invocations are the earlier ones plus the failing
one, and the cursor is closed on this and on every other exit path of
the loop (normal completion, decode failure, and advance failure
alike). -/
theorem iterate_visitor_error_abort (i : InfoStorage) (st : State) (pre : Bytes)
    (fn : Bytes → Bytes → Option Nat) (advFail : Bool)
    (rows₁ rows₂ : List JobInfoRow) (r : JobInfoRow) (v : Bytes) (e : Nat)
    (htxn : i.hasTxn = true)
    (hrows : sortedRows st i.j.id pre = rows₁ ++ r :: rows₂)
    (hclean : (iterLoop fn [] rows₁).err = none)
    (hnew : r.info_key ≠ (iterLoop fn [] rows₁).prevKey)
    (hval : r.value = Datum.dbytes v)
    (hfail : fn r.info_key v = some e) :
    iterate i st pre fn advFail =
      ⟨(iterLoop fn [] rows₁).calls ++ [(r.info_key, v)],
       some (IterErr.visitFailed e), rows₁.length + 1, true⟩ ∧
    (∀ (g : Bytes → Bytes → Option Nat) (rs : List JobInfoRow) (af : Bool),
      (iterateCursor g rs af).closed = true) := by
  refine ⟨?_, fun g rs af => rfl⟩
  unfold iterate iterateCursor
  rw [if_neg (by simp [htxn]), hrows, iterLoop_append fn rows₁ (r :: rows₂) [] hclean]
  have hstep : iterLoop fn (iterLoop fn [] rows₁).prevKey (r :: rows₂)
      = ⟨[(r.info_key, v)], r.info_key, some (.visitFailed e), 1⟩ := by
    simp [iterLoop, hnew, hval, hfail]
  rw [hstep]
  simp [iterLoop_examined_of_ok fn rows₁ [] hclean]

/-- Witness: a concrete iteration whose visitor fails on the second
distinct key stops there with that error. -/
theorem iterate_visitor_error_abort_witness :
    iterate storA stIter [10] fnFail false =
      ⟨[([10, 1], [101]), ([10, 2], [201])],
       some (IterErr.visitFailed 5), 3, true⟩ :=
  (iterate_visitor_error_abort storA stIter [10] fnFail false
    [⟨7, [10, 1], 5, .dbytes [101]⟩, ⟨7, [10, 1], 0, .dbytes [100]⟩]
    [⟨7, [10, 2], 1, .dbytes [200]⟩] ⟨7, [10, 2], 6, .dbytes [201]⟩ [201] 5
    rfl (by decide) (by decide) (by decide) rfl (by decide)).1

/-- C10: A stored record whose info key is the empty byte string is
never passed to the visitor, even when it matches the prefix and is the
newest revision of its key: the de-duplication state starts as the empty
previous key, the cursor order puts empty-key rows first, and they
compare equal to the initial previous key, so they are skipped. -/
theorem iterate_skips_empty_key (i : InfoStorage) (st : State) (pre : Bytes)
    (fn : Bytes → Bytes → Option Nat) (advFail : Bool) (htxn : i.hasTxn = true) :
    ∀ kv ∈ (iterate i st pre fn advFail).calls, kv.1 ≠ ([] : Bytes) := by
  have hcalls := iterate_calls_eq i st pre fn advFail htxn
  have hsort : List.Sorted rowLE (sortedRows st i.j.id pre) :=
    List.sorted_insertionSort rowLE (matchingRows st i.j.id pre)
  obtain ⟨h1, h2, h3⟩ := iterLoop_calls_spec fn (sortedRows st i.j.id pre) [] hsort
    (fun r _ => List.nil_le)
  intro kv hkv he
  have hlt := h1 kv (hcalls ▸ hkv)
  rw [he] at hlt
  exact lt_irrefl _ hlt

/-- Witness: in a state that stores a newest-of-its-key empty-key
record, a concrete iteration still only visits nonempty keys. -/
theorem iterate_skips_empty_key_witness : ([10, 1] : Bytes) ≠ ([] : Bytes) :=
  iterate_skips_empty_key storA stIter [] fnOK false rfl ([10, 1], [101]) (by decide)

end JobInfo
